import Mathlib

/-
Verification of the goparse command-line argument parsing library
(src/parser.go) against its specification.

The development shallowly embeds the parsing and marshalling engines:

* the data model (flagParam, valueFlagParam, paramOption, positionalParam,
  Parser) is translated field by field;
* the parse engine (Parser.parseArgs, parser.go lines 322-492) is modelled
  by `parseLoop` (the token loop, with the token cursor passed explicitly
  as the remaining-token list, mirroring popArg) together with
  `finishParse` (the post-loop list-parameter check, missing-parameter
  check and help check) and the wrapper `parseArgs`;
* the marshal engine (Parser.marshal lines 63-152 and Parser.Marshal
  lines 156-207) is modelled by `marshal` and `Marshal`.

Go's `map[string]any` value mapping is modelled as a function
`String → Option Value` (`none` = key absent); the engine only ever
stores booleans, strings and string slices, captured by `Value`.
Go runtime panics reachable in the modelled code (failed single-value
type assertions at parser.go lines 486 and 175) are modelled by the
`none` result of an `Option`-valued function, so that every theorem
about a returned result also certifies absence of these panics.
Error values produced with fmt.Errorf are modelled by one inductive
constructor per format string, carrying the formatted arguments.
-/

namespace Goparse

/-- Go struct flagParam (parser.go lines 11-16): a boolean switch. -/
structure FlagParam where
  longName : String
  shortName : Char
  description : String
  setByDefault : Bool
deriving DecidableEq

/-- Go struct valueFlagParam (parser.go lines 18-24): a flag carrying one
string argument. -/
structure ValueFlagParam where
  longName : String
  shortName : Char
  description : String
  valueName : String
  defaultValue : String
deriving DecidableEq

/-- Go struct paramOption (parser.go lines 26-29). -/
structure ParamOption where
  name : String
  hidden : Bool
deriving DecidableEq

/-- Go struct positionalParam (parser.go lines 31-36). -/
structure PositionalParam where
  name : String
  description : String
  options : List ParamOption
  minCount : Nat
deriving DecidableEq

/-- Go struct Parser (parser.go lines 38-46).  The `args` field of the Go
struct is the token cursor mutated during one parse invocation; it is
modelled as an explicit argument of `parseLoop` instead (the remaining
token list), as the spec's design notes prescribe.  The subparsers map
is modelled as an association list with unique keys; the engine only
ever looks keys up in it. -/
inductive Parser where
| mk (flagParams : List FlagParam)
     (valueFlagParams : List ValueFlagParam)
     (positionalParams : List PositionalParam)
     (listParam : Option PositionalParam)
     (subparserArgument : String)
     (subparsers : List (String × Parser))

/-- Field accessor for Parser.flagParams. -/
def Parser.flagParams : Parser → List FlagParam
| .mk x _ _ _ _ _ => x

/-- Field accessor for Parser.valueFlagParams. -/
def Parser.valueFlagParams : Parser → List ValueFlagParam
| .mk _ x _ _ _ _ => x

/-- Field accessor for Parser.positionalParams. -/
def Parser.positionalParams : Parser → List PositionalParam
| .mk _ _ x _ _ _ => x

/-- Field accessor for Parser.listParam. -/
def Parser.listParam : Parser → Option PositionalParam
| .mk _ _ _ x _ _ => x

/-- Field accessor for Parser.subparserArgument. -/
def Parser.subparserArgument : Parser → String
| .mk _ _ _ _ x _ => x

/-- Field accessor for Parser.subparsers. -/
def Parser.subparsers : Parser → List (String × Parser)
| .mk _ _ _ _ _ x => x

/-- The zero value of the Go Parser struct: all slices nil, no list
parameter, empty subparser argument, nil subparser map.  This is the
parser that parseArgs recurses into when the dispatch discriminator is
unknown (parser.go line 433: the two-value map lookup leaves `subparser`
as the zero value when `ok` is false). -/
def Parser.empty : Parser := .mk [] [] [] none "" []

/-- Values stored in the `map[string]any` value mapping.  The engine
stores booleans (flags, the help sentinel), strings (value flags and
positional parameters) and string slices (the list parameter).  Callers
of Marshal may supply other dynamic types; `bool` under a string-typed
key is what claim C9 needs. -/
inductive Value where
| bool (b : Bool)
| str (s : String)
| strList (l : List String)
deriving DecidableEq

/-- The value mapping `map[string]any`, as a function from key to
optional value (`none` = key absent). -/
abbrev Values := String → Option Value

/-- Map update `values[k] = x`. -/
def setVal (v : Values) (k : String) (x : Value) : Values :=
  fun k' => if k' = k then some x else v k'

/-- Merging the sub-parser result into the current mapping
(parser.go lines 446-448): every key present in `over` wins. -/
def mergeVals (base over : Values) : Values :=
  fun k => match over k with
  | some x => some x
  | none => base k

/-- Errors produced by parseArgs, one constructor per fmt.Errorf format
string:
missingValueLong = "missing value for flag `%s'" (line 374),
missingValueShort = "missing value for flag `%c'" (line 411),
unknownFlagLong = "unknown flag `--%s'" (line 384),
unknownFlagShort = "unknown flag `-%c'" (line 422),
badArgument = "bad argument \"%s\" for parameter `%s'" (lines 436 and 455),
unexpectedArgument = "received unexpected argument \"%s\"" (line 465),
listMinCount = "list parameter `%s' requires at least %d value(s)" (line 473),
missingParameter = "missing required parameter `%s'" (line 482). -/
inductive ParseErr where
| missingValueLong (name : String)
| missingValueShort (c : Char)
| unknownFlagLong (name : String)
| unknownFlagShort (c : Char)
| badArgument (arg : String) (param : String)
| unexpectedArgument (arg : String)
| listMinCount (name : String) (minC : Nat)
| missingParameter (name : String)
deriving DecidableEq

/-- strings.HasPrefix(arg, "--") (parser.go line 349). -/
def isLongToken (s : String) : Bool :=
  match s.data with
  | c1 :: c2 :: _ => c1 == '-' && c2 == '-'
  | _ => false

/-- strings.HasPrefix(arg, "-") (parser.go line 350). -/
def isShortToken (s : String) : Bool :=
  match s.data with
  | c :: _ => c == '-'
  | _ => false

/-- strings.TrimPrefix for a prefix of n characters known to be present:
the long branch drops "--" (line 354), the short branch drops "-"
(line 389). -/
def strDrop (s : String) (n : Nat) : String := ⟨s.data.drop n⟩

/-- Lookup in the subparsers map (parser.go lines 433 and 175). -/
def lookupSub : List (String × Parser) → String → Option Parser
| [], _ => none
| (k, q) :: tl, s => if k = s then some q else lookupSub tl s

mutual
/-- Depth of the sub-parser tree; used as the first component of the
termination measure of parseLoop (each dispatch recursion descends into
a strictly shallower parser, or into the zero-value parser of depth 1
with a strictly shorter token list). -/
def parserDepth : Parser → Nat
| .mk _ _ _ _ _ subs => 1 + parserDepthSubs subs

/-- Depth of a subparser registry. -/
def parserDepthSubs : List (String × Parser) → Nat
| [] => 0
| (_, q) :: tl => max (parserDepth q) (parserDepthSubs tl)
end

theorem parserDepth_pos (p : Parser) : 1 ≤ parserDepth p := by
  cases p with
  | mk a b c d e f => simp [parserDepth]

theorem lookupSub_depth_le (subs : List (String × Parser)) (s : String) (q : Parser)
    (h : lookupSub subs s = some q) : parserDepth q ≤ parserDepthSubs subs := by
  induction subs with
  | nil => simp [lookupSub] at h
  | cons hd tl ih =>
    obtain ⟨k, r⟩ := hd
    simp only [lookupSub] at h
    by_cases hk : k = s
    · rw [if_pos hk] at h
      cases h
      simp [parserDepthSubs, le_max_left]
    · rw [if_neg hk] at h
      exact le_trans (ih h) (by simp [parserDepthSubs, le_max_right])

theorem lookupSub_depth_lt (p : Parser) (s : String) (q : Parser)
    (h : lookupSub p.subparsers s = some q) : parserDepth q < parserDepth p := by
  cases p with
  | mk a b c d e subs =>
    have h2 := lookupSub_depth_le subs s q h
    simp [parserDepth]
    omega

/-- State after processing one flag token: the updated value mapping, the
remaining token list (value flags may have consumed lookahead tokens from
it) and the error list. -/
structure StepOut where
  values : Values
  rest : List String
  errors : List ParseErr

/-- Like StepOut, with the `found` boolean of the long-flag branch
(parser.go line 355). -/
structure VfOut where
  values : Values
  rest : List String
  errors : List ParseErr
  found : Bool

/-- Long-name flag loop (parser.go lines 361-367): the first flag whose
long name matches is toggled to the opposite of its default and the loop
breaks; the boolean is the `found` flag. -/
def applyLongFlags : List FlagParam → String → Values → Values × Bool
| [], _, v => (v, false)
| fc :: tl, n, v =>
  if fc.longName = n then (setVal v fc.longName (.bool (!fc.setByDefault)), true)
  else applyLongFlags tl n v

/-- Long-name value flag loop (parser.go lines 369-380).  This Go loop
has no break: every matching config pops one lookahead token (popArg) and
records it; popping from an empty cursor yields the zero value "" and a
missing-value error (lines 371-377). -/
def applyLongValueFlags : List ValueFlagParam → String → VfOut → VfOut
| [], _, o => o
| fc :: tl, n, o =>
  if fc.longName = n then
    match o.rest with
    | [] => applyLongValueFlags tl n
        ⟨setVal o.values fc.longName (.str ""), [], o.errors ++ [.missingValueLong n], true⟩
    | w :: ws => applyLongValueFlags tl n ⟨setVal o.values fc.longName (.str w), ws, o.errors, true⟩
  else applyLongValueFlags tl n o

/-- End of the long-flag branch (parser.go lines 383-385): an unknown
long name appends an unknown-flag error. -/
def finishLongFlag (o : VfOut) (n : String) : StepOut :=
  if o.found then ⟨o.values, o.rest, o.errors⟩
  else ⟨o.values, o.rest, o.errors ++ [.unknownFlagLong n]⟩

/-- The whole long-flag branch (parser.go lines 353-387): the literal
name "help" records the help sentinel (lines 357-359); otherwise both
the flag loop and the value-flag loop run, then an unknown name is
reported. -/
def processLongFlag (p : Parser) (n : String) (values : Values) (rest : List String)
    (errors : List ParseErr) : StepOut :=
  if n = "help" then ⟨setVal values "help" (.bool true), rest, errors⟩
  else
    finishLongFlag (applyLongValueFlags p.valueFlagParams n
      ⟨(applyLongFlags p.flagParams n values).1, rest, errors,
       (applyLongFlags p.flagParams n values).2⟩) n

/-- Short-name flag loop (parser.go lines 398-404): first match, with
break. -/
def findFlagShort : List FlagParam → Char → Option FlagParam
| [], _ => none
| fc :: tl, c => if fc.shortName = c then some fc else findFlagShort tl c

/-- Short-name value flag loop (parser.go lines 406-418): first match,
with break. -/
def findValueFlagShort : List ValueFlagParam → Char → Option ValueFlagParam
| [], _ => none
| fc :: tl, c => if fc.shortName = c then some fc else findValueFlagShort tl c

/-- Processing of one character of a short-flag cluster (parser.go lines
391-424): 'h' records the help sentinel; otherwise the first matching
flag is toggled and the first matching value flag consumes a lookahead
token (zero value "" plus a missing-value error when the cursor is
empty); a character matching nothing appends an unknown-flag error. -/
def applyShortChar (p : Parser) (c : Char) (st : StepOut) : StepOut :=
  if c = 'h' then ⟨setVal st.values "help" (.bool true), st.rest, st.errors⟩
  else
    let fo := findFlagShort p.flagParams c
    let v1 := match fo with
      | some fc => setVal st.values fc.longName (.bool (!fc.setByDefault))
      | none => st.values
    match findValueFlagShort p.valueFlagParams c with
    | some fc =>
      match st.rest with
      | [] => ⟨setVal v1 fc.longName (.str ""), [], st.errors ++ [.missingValueShort c]⟩
      | w :: ws => ⟨setVal v1 fc.longName (.str w), ws, st.errors⟩
    | none =>
      if fo.isSome then ⟨v1, st.rest, st.errors⟩
      else ⟨v1, st.rest, st.errors ++ [.unknownFlagShort c]⟩

/-- The short-flag branch iterates over every rune of the cluster
(parser.go line 391). -/
def applyShortCluster (p : Parser) : List Char → StepOut → StepOut
| [], st => st
| c :: cs, st => applyShortCluster p cs (applyShortChar p c st)

theorem applyLongValueFlags_rest_le (vfs : List ValueFlagParam) (n : String) (o : VfOut) :
    (applyLongValueFlags vfs n o).rest.length ≤ o.rest.length := by
  induction vfs generalizing o with
  | nil => simp [applyLongValueFlags]
  | cons fc tl ih =>
    by_cases h : fc.longName = n
    · cases hr : o.rest with
      | nil =>
        simp only [applyLongValueFlags, if_pos h, hr]
        have := ih ⟨setVal o.values fc.longName (.str ""), [],
          o.errors ++ [.missingValueLong n], true⟩
        simp at this
        simp [this]
      | cons w ws =>
        simp only [applyLongValueFlags, if_pos h, hr]
        have := ih ⟨setVal o.values fc.longName (.str w), ws, o.errors, true⟩
        simp at this
        simp only [List.length_cons]
        omega
    · simp only [applyLongValueFlags, if_neg h]
      exact ih o

theorem finishLongFlag_rest (o : VfOut) (n : String) : (finishLongFlag o n).rest = o.rest := by
  by_cases h : o.found <;> simp [finishLongFlag, h]

theorem processLongFlag_rest_le (p : Parser) (n : String) (v : Values) (rest : List String)
    (e : List ParseErr) : (processLongFlag p n v rest e).rest.length ≤ rest.length := by
  by_cases h : n = "help"
  · simp [processLongFlag, h]
  · simp only [processLongFlag, if_neg h, finishLongFlag_rest]
    exact applyLongValueFlags_rest_le _ _ _

theorem applyShortChar_rest_le (p : Parser) (c : Char) (st : StepOut) :
    (applyShortChar p c st).rest.length ≤ st.rest.length := by
  simp only [applyShortChar]
  by_cases h : c = 'h'
  · simp [h]
  · rw [if_neg h]
    cases hv : findValueFlagShort p.valueFlagParams c with
    | none => cases (findFlagShort p.flagParams c).isSome <;> simp [hv]
    | some fc =>
      cases hr : st.rest with
      | nil => simp [hv, hr]
      | cons w ws => simp [hv, hr]

theorem applyShortCluster_rest_le (p : Parser) (cs : List Char) (st : StepOut) :
    (applyShortCluster p cs st).rest.length ≤ st.rest.length := by
  induction cs generalizing st with
  | nil => simp [applyShortCluster]
  | cons c cs ih =>
    simp only [applyShortCluster]
    exact le_trans (ih _) (applyShortChar_rest_le p c st)

theorem dispatchMeasure (p : Parser) (s : String) (n : Nat) :
    Prod.Lex (· < ·) (· < ·)
      (parserDepth ((lookupSub p.subparsers s).getD Parser.empty), n)
      (parserDepth p, n + 1) := by
  cases hl : lookupSub p.subparsers s with
  | some q =>
    simp only [Option.getD]
    exact Prod.Lex.left _ _ (lookupSub_depth_lt p s q hl)
  | none =>
    simp only [Option.getD]
    have h1 := parserDepth_pos p
    have he : parserDepth Parser.empty = 1 := by
      simp [Parser.empty, parserDepth, parserDepthSubs]
    rcases Nat.lt_or_ge 1 (parserDepth p) with h2 | h2
    · exact Prod.Lex.left _ _ (by rw [he]; omega)
    · have hp : parserDepth p = 1 := by omega
      rw [he, hp]
      exact Prod.Lex.right _ (Nat.lt_succ_self n)

/-- Outcome of the token loop of parseArgs: `ret` is the early return of
the dispatch branch (parser.go line 450), `fall` is falling out of the
loop on token exhaustion (line 346-347) with the final mapping,
positional cursor, list accumulator and error list. -/
inductive LoopOut where
| ret (values : Values) (errors : List ParseErr)
| fall (values : Values) (cursor : Nat) (listValues : List String) (errors : List ParseErr)

/-- Flag default initialization (parser.go lines 332-334). -/
def setFlagDefaults : List FlagParam → Values → Values
| [], v => v
| fc :: tl, v => setFlagDefaults tl (setVal v fc.longName (.bool fc.setByDefault))

/-- Value flag default initialization (parser.go lines 336-338). -/
def setValueFlagDefaults : List ValueFlagParam → Values → Values
| [], v => v
| fc :: tl, v => setValueFlagDefaults tl (setVal v fc.longName (.str fc.defaultValue))

/-- Initialization of the value mapping (parser.go lines 330-338): flag
defaults first, then value flag defaults (so a value flag sharing a long
name with a flag overwrites the flag's default, as in Go). -/
def setDefaults (p : Parser) : Values :=
  setValueFlagDefaults p.valueFlagParams (setFlagDefaults p.flagParams (fun _ => none))

/-- Missing-parameter errors for every positional at or beyond the final
cursor (parser.go lines 481-483). -/
def missingParamErrors (p : Parser) (cursor : Nat) : List ParseErr :=
  (p.positionalParams.drop cursor).map (fun q => ParseErr.missingParameter q.name)

/-- Post-loop processing of parseArgs (parser.go lines 469-491): on the
fall-through path, the list parameter is checked against its minimum and
recorded (lines 471-477), missing positional parameters are reported
(lines 481-483) and the help check runs (lines 485-489): the Go loop
over the map acts only on the key "help", returning the mapping with nil
errors when its value is the boolean true; the single-value type
assertion val.(bool) panics when a non-boolean sits under "help", which
is modelled by the result `none`.  The dispatch early return (line 450)
bypasses all of this. -/
def finishParse (p : Parser) : LoopOut → Option (Values × List ParseErr)
| .ret v e => some (v, e)
| .fall v cursor listValues errors =>
  let st : Values × List ParseErr :=
    match p.listParam with
    | some lp =>
      (setVal v lp.name (.strList listValues),
       if listValues.length < lp.minCount then errors ++ [.listMinCount lp.name lp.minCount]
       else errors)
    | none => (v, errors)
  let e2 := st.2 ++ missingParamErrors p cursor
  match st.1 "help" with
  | some (.bool true) => some (st.1, [])
  | some (.bool false) => some (st.1, e2)
  | some _ => none
  | none => some (st.1, e2)

/-- Option-set scan of a positional parameter (parser.go lines 453-458).
The Go loop appends a bad-argument error and breaks when an option name
EQUALS the token; this boolean is that loop's match condition, kept
faithful to the source (see the claim C1 analysis: the spec states the
opposite polarity). -/
def hasOptionNamed : List ParamOption → String → Bool
| [], _ => false
| o :: tl, s => if o.name = s then true else hasOptionNamed tl s

/-- The token loop of parseArgs (parser.go lines 342-467).  One iteration
pops the next token (popArg) and classifies it: long flag, short-flag
cluster, positional (dispatch or plain), list accumulator, or unexpected
argument.  The dispatch branch (lines 432-451) records the token under
the dispatch parameter's name, recursively parses the remaining tokens
with the selected sub-parser (the zero-value parser when the
discriminator is unknown, after a bad-argument error), merges the
sub-parser mapping with sub-parser values winning, appends its errors
and returns early.  The recursive dispatch call is written here as the
parseLoop/finishParse composition, which is definitionally parseArgs of
the sub-parser (see parseArgs below). -/
def parseLoop (p : Parser) (args : List String) (values : Values) (cursor : Nat)
    (listValues : List String) (errors : List ParseErr) : Option LoopOut :=
  match args with
  | [] => some (.fall values cursor listValues errors)
  | arg :: rest =>
    if isLongToken arg then
      let o := processLongFlag p (strDrop arg 2) values rest errors
      parseLoop p o.rest o.values cursor listValues o.errors
    else if isShortToken arg then
      let o := applyShortCluster p (strDrop arg 1).data ⟨values, rest, errors⟩
      parseLoop p o.rest o.values cursor listValues o.errors
    else if h : cursor < p.positionalParams.length then
      let pc := p.positionalParams.get ⟨cursor, h⟩
      if pc.name = p.subparserArgument then
        let withBad := match lookupSub p.subparsers arg with
          | some _ => errors
          | none => errors ++ [.badArgument arg pc.name]
        let sub := (lookupSub p.subparsers arg).getD Parser.empty
        let values1 := setVal values pc.name (.str arg)
        match (parseLoop sub rest (setDefaults sub) 0 [] []).bind (finishParse sub) with
        | none => none
        | some (result, subErrs) =>
          some (.ret (mergeVals values1 result) (withBad ++ subErrs))
      else
        let errs2 := if hasOptionNamed pc.options arg then errors ++ [.badArgument arg pc.name]
          else errors
        parseLoop p rest (setVal values pc.name (.str arg)) (cursor + 1) listValues errs2
    else if (p.listParam).isSome then
      parseLoop p rest values cursor (listValues ++ [arg]) errors
    else
      parseLoop p rest values cursor listValues (errors ++ [.unexpectedArgument arg])
termination_by (parserDepth p, args.length)
decreasing_by
all_goals simp only [List.length_cons]
all_goals first
  | exact Prod.Lex.right _ (Nat.lt_succ_of_le (processLongFlag_rest_le _ _ _ _ _))
  | exact Prod.Lex.right _ (Nat.lt_succ_of_le (applyShortCluster_rest_le _ _ _))
  | exact dispatchMeasure _ _ _
  | exact Prod.Lex.right _ (Nat.lt_succ_self _)

/-- Parser.parseArgs (parser.go lines 322-492): initialize defaults, run
the token loop, post-process.  A `none` result models the Go runtime
panic of the val.(bool) assertion at line 486. -/
def parseArgs (p : Parser) (args : List String) : Option (Values × List ParseErr) :=
  (parseLoop p args (setDefaults p) 0 [] []).bind (finishParse p)

/-- Errors returned by marshal and Marshal, one constructor per
fmt.Errorf format string:
missingPositional = "missing required positional parameter `%s'" (line 72),
flagTypeMismatch = "expected value of type bool for flag parameter `%s' but found %T" (line 101),
listTooFewNone = "list parameter requires at least %d value(s) but found none" (line 118),
listTooFew = "list parameter requires at least %d value(s) but found %d" (lines 124 and 136),
listTypeMismatch = "expected value of type []any or []string for list parameter `%s' but found %T" (line 147),
subparserArgMissing = "subparser argument `%s' was not provided" (line 172),
subparserMissing = "subparser `%s' for argument `%s' does not exist" (line 178),
wrapArgs = "marshal arguments: %w" (line 189),
wrapSubArgs = "marshal subparser arguments: %w" (line 200). -/
inductive MarshalErr where
| missingPositional (name : String)
| flagTypeMismatch (name : String)
| listTooFewNone (minC : Nat)
| listTooFew (minC : Nat) (found : Nat)
| listTypeMismatch (name : String)
| subparserArgMissing (name : String)
| subparserMissing (sub : String) (arg : String)
| wrapArgs (e : MarshalErr)
| wrapSubArgs (e : MarshalErr)
deriving DecidableEq

/-- Modelled from the spec: the shell-escaping primitive
(shellescape.Quote) is an external collaborator used "to quote each
emitted token safely for re-tokenization by a POSIX-like shell"; at the
level of logical tokens, escaping followed by shell re-tokenization is
the identity on each token, so Quote is modelled as the identity on the
token list that marshal produces. -/
def quote (s : String) : String := s

/-- Go fmt.Sprintf("%s", value) for a dynamic value (parser.go lines 75,
85, 142): a string formats as itself; a bool formats with the %!s
type-mismatch notice; a string slice formats bracketed and
space-separated. -/
def sprintfS : Value → String
| .str s => s
| .bool b => "%!s(bool=" ++ (if b then "true" else "false") ++ ")"
| .strList l => "[" ++ String.intercalate " " l ++ "]"

/-- Positional-parameter section of marshal (parser.go lines 68-77):
every positional must be present in the mapping, else marshal fails with
the first missing one. -/
def marshalPositionals : List PositionalParam → Values → List String →
    Except MarshalErr (List String)
| [], _, acc => .ok acc
| q :: qs, values, acc =>
  match values q.name with
  | none => .error (.missingPositional q.name)
  | some v => marshalPositionals qs values (acc ++ [quote (sprintfS v)])

/-- Value-flag section of marshal (parser.go lines 81-90): every value
flag emits its long-flag token and its value, the configured default
substituting an absent key. -/
def marshalValueFlags : List ValueFlagParam → Values → List String → List String
| [], _, acc => acc
| q :: qs, values, acc =>
  match values q.longName with
  | some v => marshalValueFlags qs values (acc ++ ["--" ++ q.longName, quote (sprintfS v)])
  | none => marshalValueFlags qs values (acc ++ ["--" ++ q.longName, quote q.defaultValue])

/-- Flag section of marshal (parser.go lines 94-110): a present mapping
value must be a bool (comma-ok assertion, wrong type is an error); the
flag token is emitted when the resolved value (mapping value if present,
else the default-set state) is true. -/
def marshalFlags : List FlagParam → Values → List String → Except MarshalErr (List String)
| [], _, acc => .ok acc
| fc :: fs, values, acc =>
  match values fc.longName with
  | some (.bool b) =>
    marshalFlags fs values (if b then acc ++ ["--" ++ fc.longName] else acc)
  | some _ => .error (.flagTypeMismatch fc.longName)
  | none => marshalFlags fs values (if fc.setByDefault then acc ++ ["--" ++ fc.longName] else acc)

/-- List-parameter section of marshal (parser.go lines 114-149): an
absent key fails with the minimum-count error when the minimum is
positive, and otherwise falls into the type-switch default case (a Go
nil is neither []string nor []any), failing with the type mismatch
error; a present string slice is checked against the minimum and
emitted.  The Go []any case behaves as the []string case on
string-valued elements and is subsumed by Value.strList. -/
def marshalList : Option PositionalParam → Values → List String → Except MarshalErr (List String)
| none, _, acc => .ok acc
| some lp, values, acc =>
  match values lp.name with
  | none =>
    if 0 < lp.minCount then .error (.listTooFewNone lp.minCount)
    else .error (.listTypeMismatch lp.name)
  | some (.strList l) =>
    if l.length < lp.minCount then .error (.listTooFew lp.minCount l.length)
    else .ok (acc ++ l.map quote)
  | some _ => .error (.listTypeMismatch lp.name)

/-- Parser.marshal (parser.go lines 63-152): the four sections run in
order on one shared token accumulator; the first error aborts. -/
def marshal (p : Parser) (values : Values) : Except MarshalErr (List String) := do
  let a1 ← marshalPositionals p.positionalParams values []
  let a2 := marshalValueFlags p.valueFlagParams values a1
  let a3 ← marshalFlags p.flagParams values a2
  marshalList p.listParam values a3

/-- Parser.Marshal (parser.go lines 156-207): optional executable token,
sub-parser selection by the dispatch value (the single-value type
assertion subparserName.(string) at line 175 panics on a non-string
dispatch value, modelled by `none`), own arguments, then the selected
sub-parser's arguments, joined with spaces. -/
def Marshal (p : Parser) (executable : String) (values : Values) :
    Option (Except MarshalErr String) :=
  let args0 : List String := if executable ≠ "" then [executable] else []
  if p.subparserArgument ≠ "" then
    match values p.subparserArgument with
    | none => some (.error (.subparserArgMissing p.subparserArgument))
    | some (.str s) =>
      match lookupSub p.subparsers s with
      | none => some (.error (.subparserMissing s p.subparserArgument))
      | some sub =>
        match marshal p values with
        | .error e => some (.error (.wrapArgs e))
        | .ok a1 =>
          match marshal sub values with
          | .error e => some (.error (.wrapSubArgs e))
          | .ok a2 => some (.ok (String.intercalate " " (args0 ++ a1 ++ a2)))
    | some _ => none
  else
    match marshal p values with
    | .error e => some (.error (.wrapArgs e))
    | .ok a1 => some (.ok (String.intercalate " " (args0 ++ a1)))

/-- Resolved boolean of a flag, following the words of claim C8: the
mapping value if present (wrong type is the structural error), else the
configured default-set state. -/
def resolveFlag (values : Values) (fc : FlagParam) : Except MarshalErr Bool :=
  match values fc.longName with
  | some (.bool b) => .ok b
  | some _ => .error (.flagTypeMismatch fc.longName)
  | none => .ok fc.setByDefault

/-- Variadic-tail tokens, following the words of claim C8 (failing if
the count is below the minimum) with the absent-key/wrong-type failure
cases taken from the source where the claim is silent. -/
def specTailTokens : Option PositionalParam → Values → Except MarshalErr (List String)
| none, _ => .ok []
| some lp, values =>
  match values lp.name with
  | some (.strList l) =>
    if l.length < lp.minCount then .error (.listTooFew lp.minCount l.length)
    else .ok (l.map quote)
  | some _ => .error (.listTypeMismatch lp.name)
  | none =>
    if 0 < lp.minCount then .error (.listTooFewNone lp.minCount)
    else .error (.listTypeMismatch lp.name)

/-- Positional tokens per the words of claim C8: all positional
parameter values in order, a missing required positional value being an
error. -/
def specPositionalTokens : List PositionalParam → Values → Except MarshalErr (List String)
| [], _ => .ok []
| q :: qs, values =>
  match values q.name with
  | some v => (specPositionalTokens qs values).map (fun l => quote (sprintfS v) :: l)
  | none => .error (.missingPositional q.name)

/-- Value-flag tokens per the words of claim C8: every value flag as its
long-flag token followed by its value, the configured default
substituted when the key is absent, the flag never omitted. -/
def specValueFlagTokens : List ValueFlagParam → Values → List String
| [], _ => []
| q :: qs, values =>
  ("--" ++ q.longName) ::
    quote (sprintfS ((values q.longName).getD (.str q.defaultValue))) ::
      specValueFlagTokens qs values

/-- Flag tokens per the words of claim C8: the long-flag token of every
boolean flag whose resolved value is true. -/
def specFlagTokens : List FlagParam → Values → Except MarshalErr (List String)
| [], _ => .ok []
| fc :: fs, values =>
  match resolveFlag values fc with
  | .error e => .error e
  | .ok b => (specFlagTokens fs values).map (fun l => if b then ("--" ++ fc.longName) :: l else l)

/-- Marshal output as described by claim C8, written independently of
the source's shared-accumulator loops: positional values first, then
the value-flag tokens, then the true flags, then the tail values, the
whole computation fail-fast in the Except monad so that the first
structural error is returned alone. -/
def marshalSpec (p : Parser) (values : Values) : Except MarshalErr (List String) := do
  let pos ← specPositionalTokens p.positionalParams values
  let fl ← specFlagTokens p.flagParams values
  let tail ← specTailTokens p.listParam values
  pure (pos ++ specValueFlagTokens p.valueFlagParams values ++ fl ++ tail)

/-- Long-name first-match lookup among registered flags: the flag loop at
parser.go lines 361-367 toggles the first match and breaks. -/
def findFlagLong : List FlagParam → String → Option FlagParam
| [], _ => none
| fc :: tl, n => if fc.longName = n then some fc else findFlagLong tl n

/-- Tokens that trigger the help sentinel per claim C3: the long token
"--help", or a short-flag cluster containing the character h. -/
def isHelpToken (t : String) : Prop :=
  t = "--help" ∨ (isLongToken t = false ∧ isShortToken t = true ∧ 'h' ∈ (strDrop t 1).data)

/-- Recognizer for the two unknown-flag error kinds (claim C6). -/
def isUnknownFlagErr : ParseErr → Bool
| .unknownFlagLong _ => true
| .unknownFlagShort _ => true
| _ => false

/-- Concrete model for claim C1: a single positional parameter p with
option set containing a and b. -/
def choiceModel : Parser := .mk [] [] [⟨"p", "", [⟨"a", false⟩, ⟨"b", false⟩], 0⟩] none "" []

/-- Concrete model for claim C2: one flag f with default-set state true. -/
def defaultTrueFlagModel : Parser := .mk [⟨"f", 'f', "", true⟩] [] [] none "" []

/-- Concrete model for the claim C3 counterexample: one value flag f. -/
def valueFlagModel : Parser := .mk [] [⟨"f", 'f', "", "V", "d"⟩] [] none "" []

/-- Sub-parser for the claim C4 witness: one flag fast. -/
def runSubModel : Parser := .mk [⟨"fast", 'f', "", false⟩] [] [] none "" []

/-- Concrete model for the claim C4 witness: dispatch parameter cmd
routing the discriminator run to runSubModel. -/
def dispatchModel : Parser :=
  .mk [] [] [⟨"cmd", "", [⟨"run", false⟩], 0⟩] none "cmd" [("run", runSubModel)]

/-- Concrete model for the claim C5 witness: one flag x, default-set
state false. -/
def toggleFlagModel : Parser := .mk [⟨"x", 'x', "", false⟩] [] [] none "" []

/-- Concrete model for the claim C6 witness: one registered flag v,
neither bogus flag registered. -/
def accumModel : Parser := .mk [⟨"v", 'v', "", false⟩] [] [] none "" []

/-- Concrete model for the claim C7 witness: one flag (default true),
one value flag (default "out") and a zero-minimum list parameter. -/
def defaultsModel : Parser :=
  .mk [⟨"a", 'a', "", true⟩] [⟨"o", 'o', "", "V", "out"⟩] [] (some ⟨"rest", "", [], 0⟩) "" []

/-- Concrete model for claim C9: a dispatch parameter cmd with one
registered sub-parser. -/
def dispatchOnlyModel : Parser :=
  .mk [] [] [⟨"cmd", "", [⟨"run", false⟩], 0⟩] none "cmd" [("run", Parser.empty)]

/-- Value mapping holding a non-string value under the dispatch key
(claim C9). -/
def boolCmdValues : Values := fun k => if k = "cmd" then some (.bool true) else none

/-- Concrete model for the claim C3 witness: one flag, no value flags,
no positionals, no dispatch. -/
def helpWitnessModel : Parser := .mk [⟨"verbose", 'v', "", false⟩] [] [] none "" []

theorem setVal_self (v : Values) (k : String) (x : Value) : setVal v k x k = some x := by
  simp [setVal]

theorem setVal_ne (v : Values) (k : String) (x : Value) (k' : String) (h : k' ≠ k) :
    setVal v k x k' = v k' := by
  simp [setVal, h]

theorem parseLoop_nil (p : Parser) (v : Values) (c : Nat) (l : List String)
    (e : List ParseErr) : parseLoop p [] v c l e = some (.fall v c l e) := by
  rw [parseLoop]

theorem parseLoop_cons_long (p : Parser) (arg : String) (rest : List String) (v : Values)
    (c : Nat) (l : List String) (e : List ParseErr) (h : isLongToken arg = true) :
    parseLoop p (arg :: rest) v c l e =
      parseLoop p (processLongFlag p (strDrop arg 2) v rest e).rest
        (processLongFlag p (strDrop arg 2) v rest e).values c l
        (processLongFlag p (strDrop arg 2) v rest e).errors := by
  rw [parseLoop]
  simp [h]

theorem parseLoop_cons_short (p : Parser) (arg : String) (rest : List String) (v : Values)
    (c : Nat) (l : List String) (e : List ParseErr)
    (h1 : isLongToken arg = false) (h2 : isShortToken arg = true) :
    parseLoop p (arg :: rest) v c l e =
      parseLoop p (applyShortCluster p (strDrop arg 1).data ⟨v, rest, e⟩).rest
        (applyShortCluster p (strDrop arg 1).data ⟨v, rest, e⟩).values c l
        (applyShortCluster p (strDrop arg 1).data ⟨v, rest, e⟩).errors := by
  rw [parseLoop]
  simp [h1, h2]

theorem parseLoop_cons_positional (p : Parser) (arg : String) (rest : List String) (v : Values)
    (c : Nat) (l : List String) (e : List ParseErr)
    (h1 : isLongToken arg = false) (h2 : isShortToken arg = false)
    (h : c < p.positionalParams.length)
    (hname : (p.positionalParams.get ⟨c, h⟩).name ≠ p.subparserArgument) :
    parseLoop p (arg :: rest) v c l e =
      parseLoop p rest (setVal v (p.positionalParams.get ⟨c, h⟩).name (.str arg)) (c + 1) l
        (if hasOptionNamed (p.positionalParams.get ⟨c, h⟩).options arg
         then e ++ [.badArgument arg (p.positionalParams.get ⟨c, h⟩).name] else e) := by
  rw [parseLoop]
  have hname' : p.positionalParams[c].name ≠ p.subparserArgument := by simpa using hname
  simp [h1, h2, h, hname']

theorem parseLoop_cons_dispatch (p : Parser) (arg : String) (rest : List String) (v : Values)
    (c : Nat) (l : List String) (e : List ParseErr)
    (h1 : isLongToken arg = false) (h2 : isShortToken arg = false)
    (h : c < p.positionalParams.length)
    (hname : (p.positionalParams.get ⟨c, h⟩).name = p.subparserArgument) :
    parseLoop p (arg :: rest) v c l e =
      match parseArgs ((lookupSub p.subparsers arg).getD Parser.empty) rest with
      | none => none
      | some (result, subErrs) =>
        some (.ret (mergeVals (setVal v p.subparserArgument (.str arg)) result)
          ((match lookupSub p.subparsers arg with
            | some _ => e
            | none => e ++ [.badArgument arg p.subparserArgument]) ++ subErrs)) := by
  rw [parseLoop]
  simp only [h1, h2, Bool.false_eq_true, if_false, h, dif_pos]
  rw [if_pos hname, hname, parseArgs]

theorem parseLoop_cons_list (p : Parser) (arg : String) (rest : List String) (v : Values)
    (c : Nat) (l : List String) (e : List ParseErr)
    (h1 : isLongToken arg = false) (h2 : isShortToken arg = false)
    (h : ¬ c < p.positionalParams.length) (hl : (p.listParam).isSome = true) :
    parseLoop p (arg :: rest) v c l e = parseLoop p rest v c (l ++ [arg]) e := by
  rw [parseLoop]
  simp [h1, h2, h, hl]

theorem parseLoop_cons_unexpected (p : Parser) (arg : String) (rest : List String) (v : Values)
    (c : Nat) (l : List String) (e : List ParseErr)
    (h1 : isLongToken arg = false) (h2 : isShortToken arg = false)
    (h : ¬ c < p.positionalParams.length) (hl : (p.listParam).isSome = false) :
    parseLoop p (arg :: rest) v c l e =
      parseLoop p rest v c l (e ++ [.unexpectedArgument arg]) := by
  rw [parseLoop]
  simp [h1, h2, h, hl]

theorem applyLongFlags_not_found (l : List FlagParam) (n : String) (v : Values)
    (h : ∀ fc ∈ l, fc.longName ≠ n) : applyLongFlags l n v = (v, false) := by
  induction l with
  | nil => rfl
  | cons fc tl ih =>
    have h1 := h fc (by simp)
    simp only [applyLongFlags, if_neg h1]
    exact ih (fun q hq => h q (by simp [hq]))

theorem findFlagLong_name (l : List FlagParam) (n : String) (fc : FlagParam)
    (h : findFlagLong l n = some fc) : fc.longName = n := by
  induction l with
  | nil => simp [findFlagLong] at h
  | cons hd tl ih =>
    simp only [findFlagLong] at h
    by_cases h1 : hd.longName = n
    · rw [if_pos h1] at h
      cases h
      exact h1
    · rw [if_neg h1] at h
      exact ih h

theorem applyLongFlags_found (l : List FlagParam) (n : String) (v : Values) (fc : FlagParam)
    (h : findFlagLong l n = some fc) :
    applyLongFlags l n v = (setVal v fc.longName (.bool (!fc.setByDefault)), true) := by
  induction l with
  | nil => simp [findFlagLong] at h
  | cons hd tl ih =>
    simp only [findFlagLong] at h
    by_cases h1 : hd.longName = n
    · rw [if_pos h1] at h
      cases h
      simp [applyLongFlags, if_pos h1]
    · rw [if_neg h1] at h
      simp only [applyLongFlags, if_neg h1]
      exact ih h

theorem applyLongValueFlags_skip (l : List ValueFlagParam) (n : String) (o : VfOut)
    (h : ∀ fc ∈ l, fc.longName ≠ n) : applyLongValueFlags l n o = o := by
  induction l with
  | nil => rfl
  | cons fc tl ih =>
    have h1 := h fc (by simp)
    simp only [applyLongValueFlags, if_neg h1]
    exact ih (fun q hq => h q (by simp [hq]))

theorem processLongFlag_unknown (p : Parser) (n : String) (v : Values) (rest : List String)
    (e : List ParseErr) (hn : n ≠ "help")
    (hf : ∀ fc ∈ p.flagParams, fc.longName ≠ n)
    (hv : ∀ fc ∈ p.valueFlagParams, fc.longName ≠ n) :
    processLongFlag p n v rest e = ⟨v, rest, e ++ [.unknownFlagLong n]⟩ := by
  rw [processLongFlag, if_neg hn, applyLongFlags_not_found _ _ _ hf,
    applyLongValueFlags_skip _ _ _ hv]
  rfl

theorem processLongFlag_flagMatch (p : Parser) (n : String) (v : Values) (rest : List String)
    (e : List ParseErr) (fc : FlagParam) (hn : n ≠ "help")
    (hfind : findFlagLong p.flagParams n = some fc)
    (hv : ∀ q ∈ p.valueFlagParams, q.longName ≠ n) :
    processLongFlag p n v rest e = ⟨setVal v fc.longName (.bool (!fc.setByDefault)), rest, e⟩ := by
  rw [processLongFlag, if_neg hn, applyLongFlags_found _ _ _ _ hfind,
    applyLongValueFlags_skip _ _ _ hv]
  rfl

theorem setFlagDefaults_not_mem (l : List FlagParam) (v : Values) (k : String)
    (h : ∀ fc ∈ l, fc.longName ≠ k) : setFlagDefaults l v k = v k := by
  induction l generalizing v with
  | nil => rfl
  | cons fc tl ih =>
    have h1 := h fc (by simp)
    rw [setFlagDefaults, ih _ (fun q hq => h q (by simp [hq]))]
    exact setVal_ne _ _ _ _ (Ne.symm h1)

theorem setValueFlagDefaults_not_mem (l : List ValueFlagParam) (v : Values) (k : String)
    (h : ∀ fc ∈ l, fc.longName ≠ k) : setValueFlagDefaults l v k = v k := by
  induction l generalizing v with
  | nil => rfl
  | cons fc tl ih =>
    have h1 := h fc (by simp)
    rw [setValueFlagDefaults, ih _ (fun q hq => h q (by simp [hq]))]
    exact setVal_ne _ _ _ _ (Ne.symm h1)

theorem setFlagDefaults_cases (l : List FlagParam) (v : Values) (k : String) :
    setFlagDefaults l v k = v k ∨ ∃ b, setFlagDefaults l v k = some (.bool b) := by
  induction l generalizing v with
  | nil => exact Or.inl rfl
  | cons fc tl ih =>
    rw [setFlagDefaults]
    rcases ih (setVal v fc.longName (.bool fc.setByDefault)) with h | h
    · rw [h]
      by_cases hk : k = fc.longName
      · subst hk
        exact Or.inr ⟨fc.setByDefault, setVal_self _ _ _⟩
      · rw [setVal_ne _ _ _ _ hk]
        exact Or.inl rfl
    · exact Or.inr h

theorem setDefaults_none (p : Parser) (k : String)
    (hf : ∀ fc ∈ p.flagParams, fc.longName ≠ k)
    (hv : ∀ fc ∈ p.valueFlagParams, fc.longName ≠ k) : setDefaults p k = none := by
  rw [setDefaults, setValueFlagDefaults_not_mem _ _ _ hv, setFlagDefaults_not_mem _ _ _ hf]

theorem setDefaults_help_cases (p : Parser)
    (hv : ∀ fc ∈ p.valueFlagParams, fc.longName ≠ "help") :
    setDefaults p "help" = none ∨ ∃ b, setDefaults p "help" = some (.bool b) := by
  rw [setDefaults, setValueFlagDefaults_not_mem _ _ _ hv]
  rcases setFlagDefaults_cases p.flagParams (fun _ => none) "help" with h | h
  · exact Or.inl h
  · exact Or.inr h

theorem setFlagDefaults_mem (l : List FlagParam) (v : Values) (fc : FlagParam)
    (hnd : (l.map FlagParam.longName).Nodup) (hm : fc ∈ l) :
    setFlagDefaults l v fc.longName = some (.bool fc.setByDefault) := by
  induction l generalizing v with
  | nil => simp at hm
  | cons hd tl ih =>
    rcases List.mem_cons.mp hm with h | h
    · subst h
      rw [setFlagDefaults, setFlagDefaults_not_mem]
      · exact setVal_self _ _ _
      · intro q hq
        have := (List.nodup_cons.mp hnd).1
        intro hcontra
        exact this (hcontra ▸ List.mem_map_of_mem FlagParam.longName hq)
    · rw [setFlagDefaults]
      exact ih _ (List.nodup_cons.mp hnd).2 h

theorem setValueFlagDefaults_mem (l : List ValueFlagParam) (v : Values) (fc : ValueFlagParam)
    (hnd : (l.map ValueFlagParam.longName).Nodup) (hm : fc ∈ l) :
    setValueFlagDefaults l v fc.longName = some (.str fc.defaultValue) := by
  induction l generalizing v with
  | nil => simp at hm
  | cons hd tl ih =>
    rcases List.mem_cons.mp hm with h | h
    · subst h
      rw [setValueFlagDefaults, setValueFlagDefaults_not_mem]
      · exact setVal_self _ _ _
      · intro q hq
        have := (List.nodup_cons.mp hnd).1
        intro hcontra
        exact this (hcontra ▸ List.mem_map_of_mem ValueFlagParam.longName hq)
    · rw [setValueFlagDefaults]
      exact ih _ (List.nodup_cons.mp hnd).2 h

/-- Claim C1 (code bug): the claim and the spec say a positional token
that is NOT in the non-empty option set draws the bad-argument error and
a member does not; the source (parser.go lines 453-458) has the
membership test inverted, erroring exactly when the token IS an option
name.  Evaluating the engine on the choice model: the valid choices "a"
and "b" are recorded WITH a bad-argument error, the invalid choice "c"
is recorded with NO error. -/
theorem choice_validation_inverted :
    (parseArgs choiceModel ["a"]).map (fun r => (r.1 "p", r.2)) =
      some (some (.str "a"), [.badArgument "a" "p"]) ∧
    (parseArgs choiceModel ["b"]).map (fun r => (r.1 "p", r.2)) =
      some (some (.str "b"), [.badArgument "b" "p"]) ∧
    (parseArgs choiceModel ["c"]).map (fun r => (r.1 "p", r.2)) =
      some (some (.str "c"), []) := by
  refine ⟨?_, ?_, ?_⟩ <;>
    simp [parseArgs, parseLoop, choiceModel, isLongToken, isShortToken,
      Parser.positionalParams, Parser.subparserArgument, Parser.listParam, Parser.flagParams,
      Parser.valueFlagParams, hasOptionNamed, setVal, setDefaults, setFlagDefaults,
      setValueFlagDefaults, finishParse, missingParamErrors, strDrop]

/-- Claim C2 (code bug): Marshal's own documentation calls it the
functional inverse of the parse engine, but the round trip flips a flag
whose default-set state is true: the mapping with f = true is producible
by parsing the empty token list (no help request), marshalling it emits
the token "--f", and re-parsing that token toggles f from its default to
false, not an equivalent mapping. -/
theorem marshal_roundtrip_flips_default_true_flag :
    parseArgs defaultTrueFlagModel [] = some (setDefaults defaultTrueFlagModel, []) ∧
    setDefaults defaultTrueFlagModel "f" = some (.bool true) ∧
    setDefaults defaultTrueFlagModel "help" = none ∧
    marshal defaultTrueFlagModel (setDefaults defaultTrueFlagModel) = .ok ["--f"] ∧
    (parseArgs defaultTrueFlagModel ["--f"]).map (fun r => (r.1 "f", r.2)) =
      some (some (.bool false), []) := by
  refine ⟨?_, ?_, ?_, ?_, ?_⟩
  · rw [parseArgs, parseLoop_nil]
    rfl
  · rfl
  · rfl
  · rfl
  · simp [parseArgs, parseLoop, defaultTrueFlagModel, isLongToken, isShortToken,
      Parser.positionalParams, Parser.subparserArgument, Parser.listParam, Parser.flagParams,
      Parser.valueFlagParams, setVal, setDefaults, setFlagDefaults, setValueFlagDefaults,
      finishParse, missingParamErrors, strDrop, processLongFlag, applyLongFlags,
      applyLongValueFlags, finishLongFlag]

/-- Claim C9 (code bug): with a non-string value stored under the
dispatch key, Marshal aborts through the failed single-value type
assertion subparserName.(string) at parser.go line 175 (modelled as the
`none` result), instead of returning a string or an error value as the
claim states. -/
theorem marshal_dispatch_key_type_panic :
    boolCmdValues "cmd" = some (.bool true) ∧
    Marshal dispatchOnlyModel "" boolCmdValues = none := by
  exact ⟨rfl, rfl⟩

/-- Claim C10: a token consisting of the single character "-" is an
empty short-flag cluster: at every loop state it is consumed without
emitting an error, without touching the value mapping, and without
advancing the positional cursor or the list accumulator, and parseArgs
gives the same result with and without it at the front. -/
theorem dash_token_empty_cluster :
    (∀ (p : Parser) (args : List String) (values : Values) (cursor : Nat)
       (listValues : List String) (errors : List ParseErr),
        parseLoop p ("-" :: args) values cursor listValues errors =
          parseLoop p args values cursor listValues errors) ∧
    (∀ (p : Parser) (args : List String), parseArgs p ("-" :: args) = parseArgs p args) := by
  have hstep : ∀ (p : Parser) (args : List String) (values : Values) (cursor : Nat)
      (listValues : List String) (errors : List ParseErr),
      parseLoop p ("-" :: args) values cursor listValues errors =
        parseLoop p args values cursor listValues errors := by
    intro p args values cursor listValues errors
    rw [parseLoop_cons_short p "-" args values cursor listValues errors rfl rfl]
    rfl
  exact ⟨hstep, fun p args => by rw [parseArgs, parseArgs, hstep]⟩

/-- Claim C4: when the positional cursor reaches the dispatch parameter
with token t, the engine records t under the dispatch parameter's name,
recursively parses the remaining tokens with the sub-parser selected by
t (the zero-value parser after a bad-argument error when the
discriminator is unknown), merges the sub-parser mapping with the
sub-parser winning on key collision, appends the sub-parser errors, and
the loop yields the early return, which parseArgs propagates unchanged:
no further tokens, tail validation or missing-positional checks run at
the outer level. -/
theorem subparser_dispatch (p : Parser) (t : String) (rest : List String) (values : Values)
    (cursor : Nat) (listValues : List String) (errors : List ParseErr)
    (_hdisp : p.subparserArgument ≠ "")
    (hL : isLongToken t = false) (hS : isShortToken t = false)
    (h : cursor < p.positionalParams.length)
    (hname : (p.positionalParams.get ⟨cursor, h⟩).name = p.subparserArgument) :
    (parseLoop p (t :: rest) values cursor listValues errors =
      match parseArgs ((lookupSub p.subparsers t).getD Parser.empty) rest with
      | none => none
      | some (result, subErrs) =>
        some (.ret (mergeVals (setVal values p.subparserArgument (.str t)) result)
          ((match lookupSub p.subparsers t with
            | some _ => errors
            | none => errors ++ [.badArgument t p.subparserArgument]) ++ subErrs)))
    ∧ (∀ (args : List String) (v : Values) (e : List ParseErr),
        parseLoop p args (setDefaults p) 0 [] [] = some (.ret v e) →
        parseArgs p args = some (v, e)) := by
  constructor
  · exact parseLoop_cons_dispatch p t rest values cursor listValues errors hL hS h hname
  · intro args v e hret
    rw [parseArgs, hret]
    rfl

/-- Witness for claim C4 at the spec's own example: dispatch parameter
cmd with discriminator run routing to a sub-parser declaring the flag
fast, on the token list run --fast. -/
theorem subparser_dispatch_witness :
    (parseLoop dispatchModel ["run", "--fast"] (setDefaults dispatchModel) 0 [] [] =
      match parseArgs ((lookupSub dispatchModel.subparsers "run").getD Parser.empty) ["--fast"] with
      | none => none
      | some (result, subErrs) =>
        some (.ret (mergeVals (setVal (setDefaults dispatchModel)
            dispatchModel.subparserArgument (.str "run")) result)
          ((match lookupSub dispatchModel.subparsers "run" with
            | some _ => ([] : List ParseErr)
            | none => [] ++ [.badArgument "run" dispatchModel.subparserArgument]) ++ subErrs)))
    ∧ (∀ (args : List String) (v : Values) (e : List ParseErr),
        parseLoop dispatchModel args (setDefaults dispatchModel) 0 [] [] = some (.ret v e) →
        parseArgs dispatchModel args = some (v, e)) :=
  subparser_dispatch dispatchModel "run" ["--fast"] (setDefaults dispatchModel) 0 [] []
    (by decide) rfl rfl (by decide) (by decide)

theorem append_dd_data (x : String) : ("--" ++ x).data = '-' :: '-' :: x.data := by
  cases x with
  | mk d => rfl

theorem isLongToken_dd (x : String) : isLongToken ("--" ++ x) = true := by
  simp [isLongToken, append_dd_data]

theorem strDrop_dd (x : String) : strDrop ("--" ++ x) 2 = x := by
  cases x with
  | mk d => rfl

theorem finishParse_exists (p : Parser) (v : Values) (c : Nat) (l : List String)
    (e : List ParseErr)
    (hhelp : v "help" = none ∨ ∃ b, v "help" = some (.bool b))
    (hlp : ∀ lp, p.listParam = some lp → lp.name ≠ "help") :
    ∃ v2 e2, finishParse p (.fall v c l e) = some (v2, e2) ∧
      ∀ k, (∀ lp, p.listParam = some lp → lp.name ≠ k) → v2 k = v k := by
  rcases hl : p.listParam with _ | lp
  · rcases hhelp with hh | ⟨b, hh⟩
    · exact ⟨v, e ++ missingParamErrors p c, by simp [finishParse, hl, hh], fun k _ => rfl⟩
    · cases b
      · exact ⟨v, e ++ missingParamErrors p c, by simp [finishParse, hl, hh], fun k _ => rfl⟩
      · exact ⟨v, [], by simp [finishParse, hl, hh], fun k _ => rfl⟩
  · have hname : lp.name ≠ "help" := hlp lp hl
    have hne : (setVal v lp.name (.strList l)) "help" = v "help" :=
      setVal_ne _ _ _ _ (Ne.symm hname)
    have hpres : ∀ k, (∀ lq : PositionalParam, some lp = some lq → lq.name ≠ k) →
        (setVal v lp.name (.strList l)) k = v k := by
      intro k hk
      exact setVal_ne _ _ _ _ (Ne.symm (hk lp rfl))
    rcases hhelp with hh | ⟨b, hh⟩
    · exact ⟨setVal v lp.name (.strList l),
        (if l.length < lp.minCount then e ++ [.listMinCount lp.name lp.minCount] else e)
          ++ missingParamErrors p c,
        by simp [finishParse, hl, hne, hh], hpres⟩
    · cases b
      · exact ⟨setVal v lp.name (.strList l),
          (if l.length < lp.minCount then e ++ [.listMinCount lp.name lp.minCount] else e)
            ++ missingParamErrors p c,
          by simp [finishParse, hl, hne, hh], hpres⟩
      · exact ⟨setVal v lp.name (.strList l), [],
          by simp [finishParse, hl, hne, hh], hpres⟩

/-- Claim C5: parsing the single token formed by prepending a double
dash to the long name of a registered flag records the negation of that
flag's configured default-set state (toggle-from-default), for the first
registered flag bearing that long name, provided the name is not the
reserved help name, no value flag shares the name (a value flag would
also fire and overwrite, parser.go lines 369-380) and the list parameter
does not shadow it. -/
theorem flag_toggle (p : Parser) (x : String) (fc : FlagParam)
    (hx : x ≠ "help")
    (hfind : findFlagLong p.flagParams x = some fc)
    (hvf : ∀ q ∈ p.valueFlagParams, q.longName ≠ x ∧ q.longName ≠ "help")
    (hlp : ∀ lp, p.listParam = some lp → lp.name ≠ x ∧ lp.name ≠ "help") :
    ∃ v e, parseArgs p ["--" ++ x] = some (v, e) ∧ v x = some (.bool (!fc.setByDefault)) := by
  have hfc : fc.longName = x := findFlagLong_name _ _ _ hfind
  rw [parseArgs, parseLoop_cons_long _ _ _ _ _ _ _ (isLongToken_dd x), strDrop_dd,
    processLongFlag_flagMatch p x _ _ _ fc hx hfind (fun q hq => (hvf q hq).1), hfc]
  rw [show (⟨setVal (setDefaults p) x (.bool (!fc.setByDefault)), [], []⟩ : StepOut).rest
      = [] from rfl]
  rw [parseLoop_nil]
  have hhelp : (setVal (setDefaults p) x (.bool (!fc.setByDefault))) "help" = none ∨
      ∃ b, (setVal (setDefaults p) x (.bool (!fc.setByDefault))) "help" = some (.bool b) := by
    rw [setVal_ne _ _ _ _ (Ne.symm hx)]
    exact setDefaults_help_cases p (fun q hq => (hvf q hq).2)
  obtain ⟨v2, e2, hfin, hpres⟩ := finishParse_exists p _ 0 [] []
    hhelp (fun lp h2 => (hlp lp h2).2)
  refine ⟨v2, e2, ?_, ?_⟩
  · exact hfin
  · rw [hpres x (fun lp h2 => (hlp lp h2).1)]
    exact setVal_self _ _ _

/-- Witness for claim C5: a flag x with default-set state false parses
--x to true. -/
theorem flag_toggle_witness :
    ∃ v e, parseArgs toggleFlagModel ["--" ++ "x"] = some (v, e) ∧
      v "x" = some (.bool (!false)) := by
  refine flag_toggle toggleFlagModel "x" ⟨"x", 'x', "", false⟩ (by decide) (by decide) ?_ ?_
  · intro q hq
    exact absurd hq (by simp [toggleFlagModel, Parser.valueFlagParams])
  · intro lp h2
    simp [toggleFlagModel, Parser.listParam] at h2

theorem missing_filter (p : Parser) (c : Nat) :
    ∀ a ∈ List.drop c (List.map (fun q => ParseErr.missingParameter q.name) p.positionalParams),
      isUnknownFlagErr a = false := by
  intro a ha
  obtain ⟨q, _, rfl⟩ := List.mem_map.mp (List.drop_subset _ _ ha)
  rfl

theorem finishParse_filter_unknown (p : Parser) (v : Values) (c : Nat) (l : List String)
    (e : List ParseErr)
    (hv : v "help" = none)
    (hlp : ∀ lp, p.listParam = some lp → lp.name ≠ "help") :
    ∃ v2 e2, finishParse p (.fall v c l e) = some (v2, e2) ∧
      e2.filter isUnknownFlagErr = e.filter isUnknownFlagErr := by
  rcases hl : p.listParam with _ | lp
  · refine ⟨v, e ++ missingParamErrors p c, by simp [finishParse, hl, hv], ?_⟩
    simp [List.filter_append, missingParamErrors]
    exact missing_filter p c
  · have hne : (setVal v lp.name (.strList l)) "help" = v "help" :=
      setVal_ne _ _ _ _ (Ne.symm (hlp lp hl))
    refine ⟨setVal v lp.name (.strList l),
      (if l.length < lp.minCount then e ++ [.listMinCount lp.name lp.minCount] else e)
        ++ missingParamErrors p c,
      by simp [finishParse, hl, hne, hv], ?_⟩
    by_cases hc : l.length < lp.minCount
    · simp [hc, List.filter_append, missingParamErrors]
      exact ⟨rfl, missing_filter p c⟩
    · simp [hc, List.filter_append, missingParamErrors]
      exact missing_filter p c

/-- Claim C6: the engine accumulates errors instead of failing fast: on
the token list --bogus --also-bogus, against any model that registers
neither long name (and none of whose parameters claims the reserved help
key), the returned error list contains exactly the two unknown-flag
errors, in order, both present simultaneously. -/
theorem unknown_flag_accumulation (p : Parser)
    (hf : ∀ fc ∈ p.flagParams,
      fc.longName ≠ "bogus" ∧ fc.longName ≠ "also-bogus" ∧ fc.longName ≠ "help")
    (hv : ∀ fc ∈ p.valueFlagParams,
      fc.longName ≠ "bogus" ∧ fc.longName ≠ "also-bogus" ∧ fc.longName ≠ "help")
    (hlp : ∀ lp, p.listParam = some lp → lp.name ≠ "help") :
    ∃ v e, parseArgs p ["--bogus", "--also-bogus"] = some (v, e) ∧
      e.filter isUnknownFlagErr =
        [.unknownFlagLong "bogus", .unknownFlagLong "also-bogus"] := by
  rw [parseArgs,
    parseLoop_cons_long p "--bogus" ["--also-bogus"] (setDefaults p) 0 [] [] rfl,
    show strDrop "--bogus" 2 = "bogus" from rfl,
    processLongFlag_unknown p "bogus" _ _ _ (by decide)
      (fun q hq => (hf q hq).1) (fun q hq => (hv q hq).1)]
  dsimp only [List.nil_append]
  rw [parseLoop_cons_long p "--also-bogus" [] (setDefaults p) 0 []
      [ParseErr.unknownFlagLong "bogus"] rfl,
    show strDrop "--also-bogus" 2 = "also-bogus" from rfl,
    processLongFlag_unknown p "also-bogus" _ _ _ (by decide)
      (fun q hq => (hf q hq).2.1) (fun q hq => (hv q hq).2.1)]
  dsimp only [List.cons_append, List.nil_append]
  rw [parseLoop_nil]
  obtain ⟨v2, e2, hfin, hfil⟩ := finishParse_filter_unknown p (setDefaults p) 0 []
    [ParseErr.unknownFlagLong "bogus", ParseErr.unknownFlagLong "also-bogus"]
    (setDefaults_none p "help" (fun q hq => (hf q hq).2.2) (fun q hq => (hv q hq).2.2)) hlp
  refine ⟨v2, e2, ?_, ?_⟩
  · exact hfin
  · rw [hfil]
    decide

/-- Witness for claim C6 on a model registering one flag v. -/
theorem unknown_flag_accumulation_witness :
    ∃ v e, parseArgs accumModel ["--bogus", "--also-bogus"] = some (v, e) ∧
      e.filter isUnknownFlagErr =
        [.unknownFlagLong "bogus", .unknownFlagLong "also-bogus"] := by
  refine unknown_flag_accumulation accumModel (by decide) ?_ ?_
  · intro q hq
    exact absurd hq (by simp [accumModel, Parser.valueFlagParams])
  · intro lp h2
    simp [accumModel, Parser.listParam] at h2

theorem setDefaults_flag_mem (p : Parser) (fc : FlagParam) (hm : fc ∈ p.flagParams)
    (hnd : (p.flagParams.map FlagParam.longName).Nodup)
    (hdisj : ∀ q ∈ p.valueFlagParams, q.longName ≠ fc.longName) :
    setDefaults p fc.longName = some (.bool fc.setByDefault) := by
  rw [setDefaults, setValueFlagDefaults_not_mem _ _ _ hdisj]
  exact setFlagDefaults_mem _ _ _ hnd hm

theorem setDefaults_vf_mem (p : Parser) (q : ValueFlagParam) (hm : q ∈ p.valueFlagParams)
    (hnd : (p.valueFlagParams.map ValueFlagParam.longName).Nodup) :
    setDefaults p q.longName = some (.str q.defaultValue) := by
  rw [setDefaults]
  exact setValueFlagDefaults_mem _ _ _ hnd hm

/-- Claim C7: parsing the empty token stream against a model with no
positional parameters and no positive variadic-tail minimum succeeds
with no errors, and the resulting mapping sends every registered flag to
its configured default-set state and every registered value flag to its
configured default string (under the data model's unique-key invariants,
with the reserved help key unclaimed). -/
theorem default_round_trip (p : Parser)
    (hpos : p.positionalParams = [])
    (hlist : ∀ lp, p.listParam = some lp → lp.minCount = 0 ∧ lp.name ≠ "help" ∧
      (∀ fc ∈ p.flagParams, fc.longName ≠ lp.name) ∧
      (∀ q ∈ p.valueFlagParams, q.longName ≠ lp.name))
    (hndf : (p.flagParams.map FlagParam.longName).Nodup)
    (hndv : (p.valueFlagParams.map ValueFlagParam.longName).Nodup)
    (hdisj : ∀ fc ∈ p.flagParams, ∀ q ∈ p.valueFlagParams, q.longName ≠ fc.longName)
    (hvhelp : ∀ q ∈ p.valueFlagParams, q.longName ≠ "help") :
    ∃ v, parseArgs p [] = some (v, []) ∧
      (∀ fc ∈ p.flagParams, v fc.longName = some (.bool fc.setByDefault)) ∧
      (∀ q ∈ p.valueFlagParams, v q.longName = some (.str q.defaultValue)) := by
  rw [parseArgs, parseLoop_nil]
  have hmiss : missingParamErrors p 0 = [] := by
    simp [missingParamErrors, hpos]
  rcases hl : p.listParam with _ | lp
  · rcases setDefaults_help_cases p hvhelp with hh | ⟨b, hh⟩
    · refine ⟨setDefaults p, by simp [finishParse, hl, hh, hmiss], ?_, ?_⟩
      · exact fun fc hm => setDefaults_flag_mem p fc hm hndf (fun q hq => hdisj fc hm q hq)
      · exact fun q hm => setDefaults_vf_mem p q hm hndv
    · cases b
      · refine ⟨setDefaults p, by simp [finishParse, hl, hh, hmiss], ?_, ?_⟩
        · exact fun fc hm => setDefaults_flag_mem p fc hm hndf (fun q hq => hdisj fc hm q hq)
        · exact fun q hm => setDefaults_vf_mem p q hm hndv
      · refine ⟨setDefaults p, by simp [finishParse, hl, hh, hmiss], ?_, ?_⟩
        · exact fun fc hm => setDefaults_flag_mem p fc hm hndf (fun q hq => hdisj fc hm q hq)
        · exact fun q hm => setDefaults_vf_mem p q hm hndv
  · obtain ⟨hmin, hlphelp, hlpf, hlpv⟩ := hlist lp hl
    have hne : (setVal (setDefaults p) lp.name (.strList [])) "help" = setDefaults p "help" :=
      setVal_ne _ _ _ _ (Ne.symm hlphelp)
    have hflags : ∀ fc ∈ p.flagParams,
        (setVal (setDefaults p) lp.name (.strList [])) fc.longName =
          some (.bool fc.setByDefault) := by
      intro fc hm
      rw [setVal_ne _ _ _ _ (hlpf fc hm)]
      exact setDefaults_flag_mem p fc hm hndf (fun q hq => hdisj fc hm q hq)
    have hvfs : ∀ q ∈ p.valueFlagParams,
        (setVal (setDefaults p) lp.name (.strList [])) q.longName =
          some (.str q.defaultValue) := by
      intro q hm
      rw [setVal_ne _ _ _ _ (hlpv q hm)]
      exact setDefaults_vf_mem p q hm hndv
    rcases setDefaults_help_cases p hvhelp with hh | ⟨b, hh⟩
    · exact ⟨setVal (setDefaults p) lp.name (.strList []),
        by simp [finishParse, hl, hne, hh, hmiss, hmin], hflags, hvfs⟩
    · cases b
      · exact ⟨setVal (setDefaults p) lp.name (.strList []),
          by simp [finishParse, hl, hne, hh, hmiss, hmin], hflags, hvfs⟩
      · exact ⟨setVal (setDefaults p) lp.name (.strList []),
          by simp [finishParse, hl, hne, hh, hmiss, hmin], hflags, hvfs⟩

/-- Witness for claim C7: a flag with default-set state true, a value
flag with default "out" and a zero-minimum list parameter, parsed on the
empty token stream. -/
theorem default_round_trip_witness :
    ∃ v, parseArgs defaultsModel [] = some (v, []) ∧
      (∀ fc ∈ defaultsModel.flagParams, v fc.longName = some (.bool fc.setByDefault)) ∧
      (∀ q ∈ defaultsModel.valueFlagParams, v q.longName = some (.str q.defaultValue)) := by
  refine default_round_trip defaultsModel rfl ?_ (by decide) (by decide) (by decide) (by decide)
  intro lp h2
  have h3 : some (⟨"rest", "", [], 0⟩ : PositionalParam) = some lp := h2
  cases h3
  exact ⟨rfl, by decide, by decide, by decide⟩

theorem except_bind_ok {α β ε : Type} (a : α) (f : α → Except ε β) :
    (Except.ok a >>= f) = f a := rfl

theorem marshalPositionals_eq (qs : List PositionalParam) (values : Values) (acc : List String) :
    marshalPositionals qs values acc =
      (specPositionalTokens qs values).map (fun l => acc ++ l) := by
  induction qs generalizing acc with
  | nil => simp [marshalPositionals, specPositionalTokens, Except.map]
  | cons q qs ih =>
    cases hq : values q.name with
    | none => simp [marshalPositionals, specPositionalTokens, hq, Except.map]
    | some v =>
      rw [marshalPositionals, specPositionalTokens]
      simp only [hq]
      rw [ih]
      cases specPositionalTokens qs values with
      | error e => simp [Except.map]
      | ok l => simp [Except.map]

theorem marshalValueFlags_eq (qs : List ValueFlagParam) (values : Values) (acc : List String) :
    marshalValueFlags qs values acc = acc ++ specValueFlagTokens qs values := by
  induction qs generalizing acc with
  | nil => simp [marshalValueFlags, specValueFlagTokens]
  | cons q qs ih =>
    cases hq : values q.longName with
    | none =>
      rw [marshalValueFlags, specValueFlagTokens]
      simp only [hq, Option.getD]
      rw [ih]
      simp [sprintfS, quote]
    | some v =>
      rw [marshalValueFlags, specValueFlagTokens]
      simp only [hq, Option.getD]
      rw [ih]
      simp

theorem marshalFlags_eq (fs : List FlagParam) (values : Values) (acc : List String) :
    marshalFlags fs values acc = (specFlagTokens fs values).map (fun l => acc ++ l) := by
  induction fs generalizing acc with
  | nil => simp [marshalFlags, specFlagTokens, Except.map]
  | cons fc fs ih =>
    rw [marshalFlags, specFlagTokens, resolveFlag]
    cases hv : values fc.longName with
    | none =>
      simp only []
      rw [ih]
      cases specFlagTokens fs values with
      | error e => simp [Except.map]
      | ok l =>
        cases hb : fc.setByDefault <;> simp [Except.map]
    | some v =>
      cases v with
      | bool b =>
        simp only []
        rw [ih]
        cases specFlagTokens fs values with
        | error e => simp [Except.map]
        | ok l =>
          cases b <;> simp [Except.map]
      | str s => simp [Except.map]
      | strList l => simp [Except.map]

theorem marshalList_eq (lp : Option PositionalParam) (values : Values) (acc : List String) :
    marshalList lp values acc = (specTailTokens lp values).map (fun l => acc ++ l) := by
  cases lp with
  | none => simp [marshalList, specTailTokens, Except.map]
  | some q =>
    rw [marshalList, specTailTokens]
    cases hv : values q.name with
    | none =>
      by_cases hc : 0 < q.minCount <;> simp [hc, Except.map]
    | some v =>
      cases v with
      | bool b => simp [Except.map]
      | str s => simp [Except.map]
      | strList l =>
        by_cases hc : l.length < q.minCount <;> simp [hc, Except.map]

/-- Claim C8: marshal emits tokens in the fixed order stated by the
claim - positional values (missing one is an error), then every value
flag with its value or substituted default, then the long-flag token of
every flag whose resolved value is true (wrong type is an error), then
the tail values (short count is an error) - and it is fail-fast in the
Except monad, returning the first structural error alone: the
accumulator-style source marshal coincides with the specification-style
composition marshalSpec on every parser and mapping. -/
theorem marshal_fixed_order (p : Parser) (values : Values) :
    marshal p values = marshalSpec p values := by
  rw [marshal, marshalSpec, marshalPositionals_eq]
  cases hp : specPositionalTokens p.positionalParams values with
  | error e => rfl
  | ok pos =>
    show marshalFlags p.flagParams values
        (marshalValueFlags p.valueFlagParams values ([] ++ pos)) >>= _ = _
    rw [marshalValueFlags_eq, marshalFlags_eq]
    cases hf : specFlagTokens p.flagParams values with
    | error e => rfl
    | ok fl =>
      show marshalList p.listParam values (([] ++ pos) ++ specValueFlagTokens p.valueFlagParams values ++ fl) = _
      rw [marshalList_eq]
      cases ht : specTailTokens p.listParam values with
      | error e => rfl
      | ok tail =>
        show Except.ok ((([] ++ pos) ++ specValueFlagTokens p.valueFlagParams values ++ fl) ++ tail) = _
        rw [except_bind_ok, except_bind_ok]
        simp [List.append_assoc]

theorem findFlagShort_mem (l : List FlagParam) (c : Char) (fc : FlagParam)
    (h : findFlagShort l c = some fc) : fc ∈ l := by
  induction l with
  | nil => simp [findFlagShort] at h
  | cons hd tl ih =>
    simp only [findFlagShort] at h
    by_cases h1 : hd.shortName = c
    · rw [if_pos h1] at h
      cases h
      simp
    · rw [if_neg h1] at h
      exact List.mem_cons_of_mem _ (ih h)

theorem finishLongFlag_values (o : VfOut) (n : String) :
    (finishLongFlag o n).values = o.values := by
  by_cases h : o.found <;> simp [finishLongFlag, h]

theorem processLongFlag_rest_novf (p : Parser) (n : String) (v : Values) (rest : List String)
    (e : List ParseErr) (hvf : p.valueFlagParams = []) :
    (processLongFlag p n v rest e).rest = rest := by
  by_cases hn : n = "help"
  · simp [processLongFlag, hn]
  · rw [processLongFlag, if_neg hn, hvf]
    rw [show applyLongValueFlags [] n ⟨(applyLongFlags p.flagParams n v).1, rest, e,
      (applyLongFlags p.flagParams n v).2⟩ = ⟨(applyLongFlags p.flagParams n v).1, rest, e,
      (applyLongFlags p.flagParams n v).2⟩ from rfl, finishLongFlag_rest]

theorem applyLongFlags_fst_help (l : List FlagParam) (n : String) (v : Values)
    (hf : ∀ fc ∈ l, fc.longName ≠ "help") (h : v "help" = some (.bool true)) :
    (applyLongFlags l n v).1 "help" = some (.bool true) := by
  induction l with
  | nil => exact h
  | cons fc tl ih =>
    by_cases hfc : fc.longName = n
    · simp only [applyLongFlags, if_pos hfc]
      rw [setVal_ne _ _ _ _ (Ne.symm (hf fc (by simp)))]
      exact h
    · simp only [applyLongFlags, if_neg hfc]
      exact ih (fun q hq => hf q (by simp [hq]))

theorem processLongFlag_values_help_preserve (p : Parser) (n : String) (v : Values)
    (rest : List String) (e : List ParseErr)
    (hf : ∀ fc ∈ p.flagParams, fc.longName ≠ "help") (hvf : p.valueFlagParams = [])
    (h : v "help" = some (.bool true)) :
    (processLongFlag p n v rest e).values "help" = some (.bool true) := by
  by_cases hn : n = "help"
  · simp [processLongFlag, hn, setVal_self]
  · rw [processLongFlag, if_neg hn, hvf]
    rw [show applyLongValueFlags [] n ⟨(applyLongFlags p.flagParams n v).1, rest, e,
      (applyLongFlags p.flagParams n v).2⟩ = ⟨(applyLongFlags p.flagParams n v).1, rest, e,
      (applyLongFlags p.flagParams n v).2⟩ from rfl, finishLongFlag_values]
    exact applyLongFlags_fst_help p.flagParams n v hf h

theorem processLongFlag_help_name (p : Parser) (v : Values) (rest : List String)
    (e : List ParseErr) :
    processLongFlag p "help" v rest e = ⟨setVal v "help" (.bool true), rest, e⟩ := by
  rw [processLongFlag, if_pos rfl]

theorem applyShortChar_rest_novf (p : Parser) (c : Char) (st : StepOut)
    (hvf : p.valueFlagParams = []) : (applyShortChar p c st).rest = st.rest := by
  by_cases hc : c = 'h'
  · simp [applyShortChar, hc]
  · simp only [applyShortChar, if_neg hc, hvf, findValueFlagShort]
    cases findFlagShort p.flagParams c <;> simp

theorem applyShortCluster_rest_novf (p : Parser) (cs : List Char) (st : StepOut)
    (hvf : p.valueFlagParams = []) : (applyShortCluster p cs st).rest = st.rest := by
  induction cs generalizing st with
  | nil => rfl
  | cons c cs ih =>
    rw [applyShortCluster, ih, applyShortChar_rest_novf p c st hvf]

theorem applyShortChar_values_help_preserve (p : Parser) (c : Char) (st : StepOut)
    (hf : ∀ fc ∈ p.flagParams, fc.longName ≠ "help") (hvf : p.valueFlagParams = [])
    (h : st.values "help" = some (.bool true)) :
    (applyShortChar p c st).values "help" = some (.bool true) := by
  by_cases hc : c = 'h'
  · simp [applyShortChar, hc, setVal_self]
  · simp only [applyShortChar, if_neg hc, hvf, findValueFlagShort]
    cases hfo : findFlagShort p.flagParams c with
    | none => simpa using h
    | some fc =>
      have hne : fc.longName ≠ "help" := hf fc (findFlagShort_mem _ _ _ hfo)
      have hset : setVal st.values fc.longName (.bool (!fc.setByDefault)) "help" =
          st.values "help" := setVal_ne _ _ _ _ (Ne.symm hne)
      simp [hset, h]

theorem applyShortCluster_values_help_preserve (p : Parser) (cs : List Char) (st : StepOut)
    (hf : ∀ fc ∈ p.flagParams, fc.longName ≠ "help") (hvf : p.valueFlagParams = [])
    (h : st.values "help" = some (.bool true)) :
    (applyShortCluster p cs st).values "help" = some (.bool true) := by
  induction cs generalizing st with
  | nil => exact h
  | cons c cs ih =>
    rw [applyShortCluster]
    exact ih _ (applyShortChar_values_help_preserve p c st hf hvf h)

theorem applyShortCluster_establish (p : Parser) (cs : List Char) (st : StepOut)
    (hf : ∀ fc ∈ p.flagParams, fc.longName ≠ "help") (hvf : p.valueFlagParams = [])
    (h : 'h' ∈ cs) :
    (applyShortCluster p cs st).values "help" = some (.bool true) := by
  induction cs generalizing st with
  | nil => simp at h
  | cons c cs ih =>
    rcases List.mem_cons.mp h with hc | hc
    · rw [applyShortCluster]
      apply applyShortCluster_values_help_preserve p cs _ hf hvf
      rw [show c = 'h' from hc.symm]
      simp [applyShortChar, setVal_self]
    · rw [applyShortCluster]
      exact ih _ hc

theorem help_loop (p : Parser)
    (hvf : p.valueFlagParams = [])
    (hflag : ∀ fc ∈ p.flagParams, fc.longName ≠ "help")
    (hpos : ∀ q ∈ p.positionalParams, q.name ≠ "" ∧ q.name ≠ "help")
    (hsub : p.subparserArgument = "") :
    ∀ (args : List String) (values : Values) (cursor : Nat) (listValues : List String)
      (errors : List ParseErr),
      (values "help" = some (.bool true) ∨ ∃ t ∈ args, isHelpToken t) →
      ∃ v c l e, parseLoop p args values cursor listValues errors = some (.fall v c l e) ∧
        v "help" = some (.bool true) := by
  intro args
  induction args with
  | nil =>
    intro values cursor listValues errors h
    rcases h with h | ⟨t, ht, _⟩
    · exact ⟨values, cursor, listValues, errors, parseLoop_nil p values cursor listValues errors, h⟩
    · simp at ht
  | cons arg rest ih =>
    intro values cursor listValues errors h
    by_cases hL : isLongToken arg = true
    · rw [parseLoop_cons_long _ _ _ _ _ _ _ hL,
        processLongFlag_rest_novf p (strDrop arg 2) values rest errors hvf]
      apply ih
      by_cases hn : strDrop arg 2 = "help"
      · left
        rw [hn, processLongFlag_help_name]
        simp [setVal_self]
      · rcases h with h | ⟨t, ht, hhelp⟩
        · exact Or.inl (processLongFlag_values_help_preserve p _ values rest errors hflag hvf h)
        · rcases List.mem_cons.mp ht with rfl | htr
          · rcases hhelp with rfl | ⟨hL2, _, _⟩
            · exact absurd rfl hn
            · rw [hL] at hL2
              exact Bool.noConfusion hL2
          · exact Or.inr ⟨t, htr, hhelp⟩
    · have hL' : isLongToken arg = false := by simpa using hL
      by_cases hS : isShortToken arg = true
      · rw [parseLoop_cons_short _ _ _ _ _ _ _ hL' hS,
          applyShortCluster_rest_novf p (strDrop arg 1).data ⟨values, rest, errors⟩ hvf]
        apply ih
        by_cases hh : 'h' ∈ (strDrop arg 1).data
        · exact Or.inl (applyShortCluster_establish p _ _ hflag hvf hh)
        · rcases h with h | ⟨t, ht, hhelp⟩
          · exact Or.inl (applyShortCluster_values_help_preserve p _ _ hflag hvf h)
          · rcases List.mem_cons.mp ht with rfl | htr
            · rcases hhelp with rfl | ⟨_, _, hmem⟩
              · have : isLongToken "--help" = true := rfl
                rw [this] at hL'
                exact Bool.noConfusion hL'
              · exact absurd hmem hh
            · exact Or.inr ⟨t, htr, hhelp⟩
      · have hS' : isShortToken arg = false := by simpa using hS
        have hnothelp : ¬ isHelpToken arg := by
          intro hcontra
          rcases hcontra with rfl | ⟨_, hS2, _⟩
          · have : isLongToken "--help" = true := rfl
            rw [this] at hL'
            exact Bool.noConfusion hL'
          · rw [hS2] at hS'
            exact Bool.noConfusion hS'
        have h' : values "help" = some (.bool true) ∨ ∃ t ∈ rest, isHelpToken t := by
          rcases h with h | ⟨t, ht, hhelp⟩
          · exact Or.inl h
          · rcases List.mem_cons.mp ht with rfl | htr
            · exact absurd hhelp hnothelp
            · exact Or.inr ⟨t, htr, hhelp⟩
        by_cases hc : cursor < p.positionalParams.length
        · have hq := hpos (p.positionalParams.get ⟨cursor, hc⟩) (p.positionalParams.get_mem _ _)
          have hname : (p.positionalParams.get ⟨cursor, hc⟩).name ≠ p.subparserArgument := by
            rw [hsub]
            exact hq.1
          rw [parseLoop_cons_positional _ _ _ _ _ _ _ hL' hS' hc hname]
          apply ih
          rcases h' with h2 | h2
          · left
            rw [setVal_ne _ _ _ _ (Ne.symm hq.2)]
            exact h2
          · exact Or.inr h2
        · by_cases hLp : (p.listParam).isSome = true
          · rw [parseLoop_cons_list _ _ _ _ _ _ _ hL' hS' hc hLp]
            exact ih _ _ _ _ h'
          · have hLp' : (p.listParam).isSome = false := by simpa using hLp
            rw [parseLoop_cons_unexpected _ _ _ _ _ _ _ hL' hS' hc hLp']
            exact ih _ _ _ _ h'

/-- Claim C3 as amended: for a parser with no value flags (a value flag
would consume a help token from the stream as its value), no dispatch
parameter (the dispatch early return bypasses the help check at
parser.go lines 485-489), and none of whose parameters claims the
reserved help key, any token list containing the token --help, or a
short-flag cluster containing the character h, makes the engine return
the mapping with the help sentinel set and an empty error list,
regardless of any other malformed tokens. -/
theorem help_precedence_amended (p : Parser) (tokens : List String)
    (hvf : p.valueFlagParams = [])
    (hsub : p.subparserArgument = "")
    (hflag : ∀ fc ∈ p.flagParams, fc.longName ≠ "help")
    (hpos : ∀ q ∈ p.positionalParams, q.name ≠ "" ∧ q.name ≠ "help")
    (hlp : ∀ lp, p.listParam = some lp → lp.name ≠ "help")
    (ht : ∃ t ∈ tokens, isHelpToken t) :
    ∃ v, parseArgs p tokens = some (v, []) ∧ v "help" = some (.bool true) := by
  obtain ⟨v, c, l, e, hloop, hhelp⟩ :=
    help_loop p hvf hflag hpos hsub tokens (setDefaults p) 0 [] [] (Or.inr ht)
  rw [parseArgs, hloop]
  rcases hl : p.listParam with _ | lp
  · exact ⟨v, by simp [finishParse, hl, hhelp], hhelp⟩
  · have hlook : (setVal v lp.name (.strList l)) "help" = some (.bool true) := by
      rw [setVal_ne _ _ _ _ (Ne.symm (hlp lp hl))]
      exact hhelp
    exact ⟨setVal v lp.name (.strList l), by simp [finishParse, hl, hlook], hlook⟩

/-- Counterexample to claim C3 as stated: the token list --f --help does
contain --help, but with a registered value flag f the help token is
consumed as f's value (parser.go lines 369-380), so the returned mapping
has NO help sentinel (and records "--help" under f), contradicting the
claim that any token list containing --help yields the sentinel set. -/
theorem help_precedence_counterexample :
    (parseArgs valueFlagModel ["--f", "--help"]).map (fun r => (r.1 "help", r.1 "f", r.2)) =
      some (none, some (.str "--help"), []) := by
  simp [parseArgs, parseLoop, valueFlagModel, isLongToken, isShortToken,
    Parser.positionalParams, Parser.subparserArgument, Parser.listParam, Parser.flagParams,
    Parser.valueFlagParams, setVal, setDefaults, setFlagDefaults, setValueFlagDefaults,
    finishParse, missingParamErrors, strDrop, processLongFlag, applyLongFlags,
    applyLongValueFlags, finishLongFlag]

/-- Witness for claim C3 as amended: a model with one flag and no value
flags, on a token list holding an unknown flag and --help. -/
theorem help_precedence_amended_witness :
    ∃ v, parseArgs helpWitnessModel ["--bogus", "--help"] = some (v, []) ∧
      v "help" = some (.bool true) := by
  refine help_precedence_amended helpWitnessModel ["--bogus", "--help"] rfl rfl
    (by decide) ?_ ?_ ?_
  · intro q hq
    exact absurd hq (by simp [helpWitnessModel, Parser.positionalParams])
  · intro lp h2
    simp [helpWitnessModel, Parser.listParam] at h2
  · exact ⟨"--help", by simp, Or.inl rfl⟩

end Goparse
